import Mathlib

/-!
Verification of the sequential revision-execution engine of git-corun
(src/main.rs) against its specification.

The engine is embedded shallowly:

* Raw process exit information (Rust ExitStatus::code() : Option<i32>) is
  an Option Int.
* The Status enum, its classifier (impl From<ExitStatus> for Status), its
  code accessor and its get_format renderer are translated directly.
* The orchestration (main / app / run_app_for / run_in / create_directory)
  is embedded as computations in a trace monad Tr: each collaborator call
  (the git module, the filesystem, process spawning) is a call into an
  abstract environment Env, logged as an Event; Rust ? propagation becomes
  Except error propagation.  The git module itself is out of scope
  (a black-box collaborator), so its results are fields of Env.
* Machine integers (i32 exit codes) are Int; the only place overflow
  semantics matter is the display reduction (code & 0xff) as u8, which for
  two's-complement i32 equals the Euclidean remainder code % 256.
-/

/-- Raw exit information of a finished process, mirroring Rust
ExitStatus::code(): some c when the process exited with code c, none when
it was terminated abnormally (e.g. by a signal). -/
abbrev ExitStatus := Option Int

/-- The Status enum of src/main.rs (lines 246-258). -/
inductive Status where
  | Pending : Status
  | Success : Int → Status
  | Failure : Int → Status
  | Inconclusive : Int → Status
  | Abort : Option Int → Status
deriving DecidableEq, Repr

/-- The classifier impl From<ExitStatus> for Status (src/main.rs lines
288-297).  The Rust match arms, in order: Some(0), Some(1..=124 | 126 |
127), Some(125), and a catch-all binding the whole Option (so it covers
both any other code and None). -/
def Status.ofExitStatus : ExitStatus → Status
  | none => Status.Abort none
  | some c =>
    if c = 0 then Status.Success c
    else if (1 ≤ c ∧ c ≤ 124) ∨ c = 126 ∨ c = 127 then Status.Failure c
    else if c = 125 then Status.Inconclusive c
    else Status.Abort (some c)

/-- Status::code (src/main.rs lines 277-285). -/
def Status.code : Status → Option Int
  | Status.Pending => none
  | Status.Success c => some c
  | Status.Failure c => some c
  | Status.Inconclusive c => some c
  | Status.Abort c => c

/-- The per-variant glyph chosen by the match at the head of
Status::get_format (src/main.rs lines 262-268). -/
def Status.glyph : Status → String
  | Status.Pending => "%C(bold)%C(yellow)●"
  | Status.Success _ => "%C(bold)%C(green)✔"
  | Status.Failure _ => "%C(bold)%C(red)✘"
  | Status.Inconclusive _ => "%C(bold)%C(blue)?"
  | Status.Abort _ => "%C(bold)%C(red)!"

/-- Rust format specifier {:>3}: right-align to minimum width 3, filling
with spaces (the default fill character). -/
def padRightAlign3 (s : String) : String :=
  if s.length < 3 then String.mk (List.replicate (3 - s.length) ' ') ++ s else s

/-- Zero-padding to width 3 (Rust {:03}).  Only used to state what the
spec's wording (zero-padded) would require; the code uses {:>3}. -/
def zeroPad3 (s : String) : String :=
  if s.length < 3 then String.mk (List.replicate (3 - s.length) '0') ++ s else s

/-- Status::get_format (src/main.rs lines 261-275).  When a code is
present the code renders (code & 0xff) as u8 with {:>3}; on i32 the
two's-complement truncation (code & 0xff) as u8 is the Euclidean
remainder code % 256, printed in decimal. -/
def Status.get_format (s : Status) : String :=
  match s.code with
  | some code => s.glyph ++ padRightAlign3 (toString ((code % 256).toNat)) ++ "%Creset"
  | none => s.glyph ++ "   %Creset"

/-- The Options struct filled by structopt (src/main.rs lines 13-43).
Paths are strings. -/
structure Options where
  dir : Option String
  apply_stash : Bool
  apply_index : Bool
  shell_command : Bool
  verbose : Bool
  commits : List String
  command : List String
deriving DecidableEq, Repr

/-- Errors returned by the external collaborators: the git module
(version-control errors) and the OS (filesystem and process-spawn
errors).  Both are propagated by the engine with the Rust ? operator. -/
inductive RunError where
  | gitErr : String → RunError
  | ioErr : String → RunError
deriving DecidableEq, Repr

/-- Everything that can abort a run: a propagated collaborator error, or
the unimplemented panic in app's apply_index branch (src/main.rs line 79). -/
inductive AppError where
  | fromRun : RunError → AppError
  | panicUnimplemented : AppError
deriving DecidableEq, Repr

/-- One observable engine action: a call into a collaborator, or the
terminal clear-line write.  Used to record the order of side effects. -/
inductive Event where
  | getGitDir : Event
  | getCommitHash : String → Event
  | getCommitHashes : String → Event
  | createDir : Event
  | cloneLocal : Event
  | checkout : String → Event
  | clean : Event
  | applyStash : String → Event
  | printCommit : String → Status → Event
  | clearLine : Event
  | runCommand : String → Event
deriving DecidableEq, Repr

/-- The results the external collaborators give back during one run.  The
functions of the git module take the run's git_dir and work_tree, which
are fixed for a whole run, so the environment is already specialized to
them; runResult gives the raw exit status of the user command when the
workspace is checked out at a given commit. -/
structure Env where
  getGitDir : Except RunError String
  getCommitHash : String → Except RunError String
  getCommitHashes : String → Except RunError (List String)
  createDir : Except RunError String
  cloneLocal : Except RunError Unit
  checkoutDetached : String → Except RunError Unit
  cleanWorkDir : Except RunError Unit
  applyStash : String → Except RunError Unit
  showCommit : String → String → Except RunError Unit
  runResult : String → Except RunError ExitStatus

/-- A computation that logs the collaborator calls it makes, in order, and
either returns a value or stops at the first error (Rust ? propagation).
The trace keeps the events that happened before the error. -/
abbrev Tr (α : Type) : Type := List Event × Except AppError α

/-- Return without calling any collaborator. -/
def Tr.pure {α : Type} (a : α) : Tr α := ([], Except.ok a)

/-- Sequencing: on error the continuation does not run (its events are not
logged); on success the traces concatenate. -/
def Tr.bind {α β : Type} : Tr α → (α → Tr β) → Tr β
  | (t, Except.error e), _ => (t, Except.error e)
  | (t, Except.ok a), f => (t ++ (f a).1, (f a).2)

/-- One collaborator call: log its event, propagate its result. -/
def emit {α : Type} (ev : Event) (r : Except RunError α) : Tr α :=
  ([ev], r.mapError AppError.fromRun)

/-- The computation does not end in the unimplemented panic. -/
def Tr.noPanic {α : Type} (x : Tr α) : Prop :=
  x.2 ≠ Except.error AppError.panicUnimplemented

/-- Equality of collaborator results is decidable, so the theorems can be
evaluated on concrete environments. -/
instance exceptDecidableEq {ε α : Type} [DecidableEq ε] [DecidableEq α] :
    DecidableEq (Except ε α) := fun x y =>
  match x, y with
  | Except.error e1, Except.error e2 =>
    if h : e1 = e2 then Decidable.isTrue (by rw [h])
    else Decidable.isFalse (by simp [h])
  | Except.error _, Except.ok _ => Decidable.isFalse (by simp)
  | Except.ok _, Except.error _ => Decidable.isFalse (by simp)
  | Except.ok a1, Except.ok a2 =>
    if h : a1 = a2 then Decidable.isTrue (by rw [h])
    else Decidable.isFalse (by simp [h])

/-- The fixed commit-summary format (src/main.rs line 160). -/
def base_format : String :=
  "%C(yellow)%h %C(bold)%G? %Creset%C(cyan)[%Cgreen%ad%C(cyan) by %Cred%an%C(cyan)]%Creset %s"

/-- print_commit (src/main.rs lines 155-164): prepend the status glyph and
code to the fixed format and ask the git module to show the commit. -/
def print_commit (env : Env) (commit : String) (status : Status) : Tr Unit :=
  emit (Event.printCommit commit status)
    (env.showCommit commit (status.get_format ++ " " ++ base_format))

/-- The overwrite of the pending line (src/main.rs lines 144-149): only in
non-verbose mode, and it is a plain stdout write. -/
def clear_pending_line (opts : Options) : Tr Unit :=
  if opts.verbose then Tr.pure () else ([Event.clearLine], Except.ok ())

/-- The optional stash application inside run_app_for (src/main.rs lines
131-134). -/
def apply_stash_step (env : Env) : Option String → Tr Unit
  | some stash_commit => emit (Event.applyStash stash_commit) (env.applyStash stash_commit)
  | none => Tr.pure ()

/-- The three preparation calls of run_app_for (src/main.rs lines
125-134): detached checkout, then clean, then optional stash apply. -/
def prep_steps (env : Env) (commit : String) (stash_commit : Option String) : Tr Unit :=
  Tr.bind (emit (Event.checkout commit) (env.checkoutDetached commit)) (fun _ =>
  Tr.bind (emit Event.clean env.cleanWorkDir) (fun _ =>
  apply_stash_step env stash_commit))

/-- The tail of run_app_for after preparation (src/main.rs lines
136-152): pending report, command run, optional line clear, final report,
and the returned exit code exit_status.code().unwrap_or(255). -/
def after_prep (env : Env) (opts : Options) (commit : String) : Tr Int :=
  Tr.bind (print_commit env commit Status.Pending) (fun _ =>
  Tr.bind (emit (Event.runCommand commit) (env.runResult commit)) (fun exit_status =>
  Tr.bind (clear_pending_line opts) (fun _ =>
  Tr.bind (print_commit env commit (Status.ofExitStatus exit_status)) (fun _ =>
  Tr.pure (exit_status.getD 255)))))

/-- run_app_for (src/main.rs lines 115-153): resolve the commit hash,
prepare the workspace, then run and report. -/
def run_app_for (env : Env) (opts : Options) (commit0 : String)
    (stash_commit : Option String) : Tr Int :=
  Tr.bind (emit (Event.getCommitHash commit0) (env.getCommitHash commit0)) (fun commit =>
  Tr.bind (prep_steps env commit stash_commit) (fun _ =>
  after_prep env opts commit))

/-- The stash lookup at the head of app (src/main.rs lines 76-82).  The
apply_index branch is Rust unimplemented!, i.e. a panic. -/
def stash_step (env : Env) (opts : Options) : Tr (Option String) :=
  if opts.apply_stash then
    Tr.bind (emit (Event.getCommitHash "refs/stash") (env.getCommitHash "refs/stash"))
      (fun h => Tr.pure (some h))
  else if opts.apply_index then ([], Except.error AppError.panicUnimplemented)
  else Tr.pure none

/-- The commit expansion of app (src/main.rs lines 84-92): resolve each
specifier in order, stop at the first error, flatten the results in
specifier order. -/
def expand_commits (env : Env) : List String → Tr (List String)
  | [] => Tr.pure []
  | spec :: rest =>
    Tr.bind (emit (Event.getCommitHashes spec) (env.getCommitHashes spec)) (fun cs =>
    Tr.bind (expand_commits env rest) (fun others => Tr.pure (cs ++ others)))

/-- The per-commit loop of app (src/main.rs lines 101-110):
last_exit_code starts at 0 and is overwritten by every iteration. -/
def runLoop (env : Env) (opts : Options) (stash_commit : Option String) :
    List String → Int → Tr Int
  | [], last_exit_code => Tr.pure last_exit_code
  | commit :: rest, _ =>
    Tr.bind (run_app_for env opts commit stash_commit) (fun code =>
      runLoop env opts stash_commit rest code)

/-- app (src/main.rs lines 71-113). -/
def app (env : Env) (opts : Options) : Tr Int :=
  Tr.bind (emit Event.getGitDir env.getGitDir) (fun _git_dir =>
  Tr.bind (stash_step env opts) (fun stash_commit =>
  Tr.bind (expand_commits env opts.commits) (fun commits =>
  Tr.bind (emit Event.createDir env.createDir) (fun _tmpdir =>
  Tr.bind (emit Event.cloneLocal env.cloneLocal) (fun _ =>
  runLoop env opts stash_commit commits 0)))))

/-- main (src/main.rs lines 51-69): argument-parsing failure exits with
128 (both its branches), an error out of app exits with 128, otherwise
the process exits with the code app returned. -/
def mainExitCode (parsed : Except String Options) (env : Env) : Int :=
  match parsed with
  | Except.error _ => 128
  | Except.ok opts =>
    match (app env opts).2 with
    | Except.error _ => 128
    | Except.ok exit_code => exit_code

/-- I/O policy for one standard stream of the child process (the engine
only ever uses Stdio::null and Stdio::inherit). -/
inductive StdioMode where
  | nullStream : StdioMode
  | inheritStream : StdioMode
deriving DecidableEq, Repr

/-- The process the engine asks the OS to spawn: program, arguments,
working directory and the policy of each standard stream. -/
structure Spawn where
  program : String
  args : List String
  current_dir : String
  stdin : StdioMode
  stdout : StdioMode
  stderr : StdioMode
deriving DecidableEq, Repr

/-- run_in (src/main.rs lines 166-202), modelled up to the point where
the Command is handed to the OS.  The iterator's first .unwrap() panics
on an empty command (none); structopt requires at least one token. -/
def run_in (opts : Options) (command : List String) (dir : String) : Option Spawn :=
  match command with
  | [] => none
  | cmd_first :: cmd_rest =>
    let ea := if opts.shell_command
      then ("/bin/bash", ["-c", cmd_first, "--"] ++ cmd_rest)
      else (cmd_first, cmd_rest)
    if opts.verbose then
      some { program := ea.1, args := ea.2, current_dir := dir,
             stdin := StdioMode.nullStream, stdout := StdioMode.inheritStream,
             stderr := StdioMode.inheritStream }
    else
      some { program := ea.1, args := ea.2, current_dir := dir,
             stdin := StdioMode.nullStream, stdout := StdioMode.nullStream,
             stderr := StdioMode.nullStream }

/-- chrono Duration::weeks n, in nanoseconds (chrono durations compare at
full precision; timestamps are modelled as nanoseconds since an epoch). -/
def weeksNs (n : Int) : Int := n * 7 * 24 * 60 * 60 * 1000000000

/-- The cleanup scan inside create_directory (src/main.rs lines 219-233):
among the children of the base directory, those whose name parses as a
timestamp (parse, modelling Local.datetime_from_str with the fixed format)
and whose age now - date strictly exceeds 7 weeks are passed to
remove_dir_all.  Children that fail to parse are dropped by the flat_map. -/
def removed_dirs (parse : String → Option Int) (now : Int)
    (children : List String) : List String :=
  ((children.filterMap fun name => (parse name).map fun date => (name, date)).filter
    fun nd => weeksNs 7 < now - nd.2).map Prod.fst

/-- The pure plan of create_directory (src/main.rs lines 208-244): which
children get removed, and which path is created.  With a caller-supplied
dir the scan is skipped entirely; otherwise the scan runs only when the
base directory exists, and the new directory is named by the current
timestamp under the base. -/
def create_directory_plan (opts : Options) (parse : String → Option Int) (now : Int)
    (baseExists : Bool) (children : List String) (newName baseDir : String) :
    List String × String :=
  match opts.dir with
  | some dir => ([], dir)
  | none =>
    ((if baseExists then removed_dirs parse now children else []),
     baseDir ++ "/" ++ newName)

/-- The fields structopt actually fills from the command line: every field
of Options except apply_index, which is marked structopt(skip)
(src/main.rs lines 29-30). -/
structure ParsedArgs where
  dir : Option String
  apply_stash : Bool
  shell_command : Bool
  verbose : Bool
  commits : List String
  command : List String
deriving DecidableEq, Repr

/-- How a successful parse builds Options: the skipped apply_index field
takes its Default value, false. -/
def ParsedArgs.toOptions (p : ParsedArgs) : Options :=
  { dir := p.dir, apply_stash := p.apply_stash, apply_index := false,
    shell_command := p.shell_command, verbose := p.verbose,
    commits := p.commits, command := p.command }

/-- A concrete all-successful environment, used to evaluate the theorems
on concrete inputs. -/
def sampleEnv : Env where
  getGitDir := Except.ok "/repo/.git"
  getCommitHash := fun s => Except.ok ("h:" ++ s)
  getCommitHashes := fun s => Except.ok ["h:" ++ s]
  createDir := Except.ok "/ws/t"
  cloneLocal := Except.ok ()
  checkoutDetached := fun _ => Except.ok ()
  cleanWorkDir := Except.ok ()
  applyStash := fun _ => Except.ok ()
  showCommit := fun _ _ => Except.ok ()
  runResult := fun _ => Except.ok (some 7)

/-- A concrete option set: two specifiers, no stash, not verbose. -/
def sampleOpts : Options where
  dir := none
  apply_stash := false
  apply_index := false
  shell_command := false
  verbose := false
  commits := ["A", "B"]
  command := ["true"]

/-- sampleOpts with shell-command mode enabled. -/
def shellOpts : Options := { sampleOpts with shell_command := true }

/-- sampleEnv with a failing git-directory lookup (a fatal error before
any commit runs). -/
def failEnv : Env :=
  { sampleEnv with getGitDir := Except.error (RunError.gitErr "no repo") }

/-- sampleEnv whose user command is killed by a signal at every commit
(exit status absent). -/
def sigEnv : Env :=
  { sampleEnv with runResult := fun _ => Except.ok none }

/-- sampleEnv in which every specifier expands to zero commits. -/
def emptyEnv : Env :=
  { sampleEnv with getCommitHashes := fun _ => Except.ok [] }

/-! Basic lemmas about the trace monad. -/

lemma Tr.snd_bind {α β : Type} (x : Tr α) (f : α → Tr β) :
    (Tr.bind x f).2 = match x.2 with
      | Except.error e => Except.error e
      | Except.ok a => (f a).2 := by
  obtain ⟨t, r⟩ := x
  cases r <;> rfl

lemma Tr.bind_snd_ok {α β : Type} (x : Tr α) (f : α → Tr β) (b : β) :
    (Tr.bind x f).2 = Except.ok b ↔ ∃ a, x.2 = Except.ok a ∧ (f a).2 = Except.ok b := by
  obtain ⟨t, r⟩ := x
  cases r <;> simp [Tr.bind]

lemma Tr.fst_bind_ok {α β : Type} {x : Tr α} {a : α} (f : α → Tr β)
    (h : x.2 = Except.ok a) : (Tr.bind x f).1 = x.1 ++ (f a).1 := by
  obtain ⟨t, r⟩ := x
  cases r with
  | error e => simp at h
  | ok a2 =>
    simp at h
    subst h
    rfl

lemma Tr.fst_bind_error {α β : Type} {x : Tr α} {e : AppError} (f : α → Tr β)
    (h : x.2 = Except.error e) : Tr.bind x f = (x.1, Except.error e) := by
  obtain ⟨t, r⟩ := x
  cases r with
  | error e2 =>
    simp at h
    subst h
    rfl
  | ok a => simp at h

lemma emit_snd_ok {α : Type} (ev : Event) (r : Except RunError α) (a : α) :
    (emit ev r).2 = Except.ok a ↔ r = Except.ok a := by
  cases r <;> simp [emit, Except.mapError]

lemma Tr.bind_events {α β : Type} (x : Tr α) (f : α → Tr β) (P : Event → Prop)
    (hx : ∀ ev ∈ x.1, P ev) (hf : ∀ a, ∀ ev ∈ (f a).1, P ev) :
    ∀ ev ∈ (Tr.bind x f).1, P ev := by
  obtain ⟨t, r⟩ := x
  cases r with
  | error e => exact hx
  | ok a =>
    intro ev hev
    simp only [Tr.bind, List.mem_append] at hev
    rcases hev with h | h
    · exact hx ev h
    · exact hf a ev h

/-! No computation of the engine other than the apply_index branch can
produce the panic marker. -/

lemma Tr.pure_noPanic {α : Type} (a : α) : (Tr.pure a).noPanic := by
  simp [Tr.pure, Tr.noPanic]

lemma emit_noPanic {α : Type} (ev : Event) (r : Except RunError α) : (emit ev r).noPanic := by
  cases r <;> simp [emit, Tr.noPanic, Except.mapError]

lemma Tr.bind_noPanic {α β : Type} {x : Tr α} {f : α → Tr β}
    (hx : x.noPanic) (hf : ∀ a, (f a).noPanic) : (Tr.bind x f).noPanic := by
  obtain ⟨t, r⟩ := x
  cases r with
  | error e => simpa [Tr.bind, Tr.noPanic] using hx
  | ok a => simpa [Tr.bind, Tr.noPanic] using hf a

lemma print_commit_noPanic (env : Env) (commit : String) (st : Status) :
    (print_commit env commit st).noPanic :=
  emit_noPanic _ _

lemma clear_pending_line_noPanic (opts : Options) : (clear_pending_line opts).noPanic := by
  unfold clear_pending_line
  by_cases h : opts.verbose <;> simp [h, Tr.pure, Tr.noPanic]

lemma apply_stash_step_noPanic (env : Env) (st : Option String) :
    (apply_stash_step env st).noPanic := by
  cases st with
  | none => exact Tr.pure_noPanic _
  | some s => exact emit_noPanic _ _

lemma prep_steps_noPanic (env : Env) (commit : String) (st : Option String) :
    (prep_steps env commit st).noPanic :=
  Tr.bind_noPanic (emit_noPanic _ _) (fun _ =>
    Tr.bind_noPanic (emit_noPanic _ _) (fun _ => apply_stash_step_noPanic _ _))

lemma after_prep_noPanic (env : Env) (opts : Options) (commit : String) :
    (after_prep env opts commit).noPanic :=
  Tr.bind_noPanic (print_commit_noPanic _ _ _) (fun _ =>
    Tr.bind_noPanic (emit_noPanic _ _) (fun _ =>
      Tr.bind_noPanic (clear_pending_line_noPanic _) (fun _ =>
        Tr.bind_noPanic (print_commit_noPanic _ _ _) (fun _ => Tr.pure_noPanic _))))

lemma run_app_for_noPanic (env : Env) (opts : Options) (c : String) (st : Option String) :
    (run_app_for env opts c st).noPanic :=
  Tr.bind_noPanic (emit_noPanic _ _) (fun _ =>
    Tr.bind_noPanic (prep_steps_noPanic _ _ _) (fun _ => after_prep_noPanic _ _ _))

lemma runLoop_noPanic (env : Env) (opts : Options) (st : Option String) :
    ∀ (l : List String) (init : Int), (runLoop env opts st l init).noPanic := by
  intro l
  induction l with
  | nil => intro init; exact Tr.pure_noPanic _
  | cons c rest ih =>
    intro init
    exact Tr.bind_noPanic (run_app_for_noPanic _ _ _ _) (fun code => ih code)

lemma expand_commits_noPanic (env : Env) :
    ∀ specs : List String, (expand_commits env specs).noPanic := by
  intro specs
  induction specs with
  | nil => exact Tr.pure_noPanic _
  | cons s rest ih =>
    exact Tr.bind_noPanic (emit_noPanic _ _) (fun _ =>
      Tr.bind_noPanic ih (fun _ => Tr.pure_noPanic _))

lemma stash_step_noPanic (env : Env) (opts : Options) (h : opts.apply_index = false) :
    (stash_step env opts).noPanic := by
  unfold stash_step
  by_cases h1 : opts.apply_stash
  · simp only [h1, if_true]
    exact Tr.bind_noPanic (emit_noPanic _ _) (fun _ => Tr.pure_noPanic _)
  · simp only [h1, h, if_false]
    exact Tr.pure_noPanic _

/-! Which events each phase can log. -/

lemma after_prep_events (env : Env) (opts : Options) (commit : String) :
    ∀ ev ∈ (after_prep env opts commit).1,
      (∃ st, ev = Event.printCommit commit st) ∨ ev = Event.runCommand commit ∨
        ev = Event.clearLine := by
  refine Tr.bind_events _ _ _ ?_ ?_
  · intro ev hev
    simp only [print_commit, emit, List.mem_singleton] at hev
    exact Or.inl ⟨Status.Pending, hev⟩
  · intro _
    refine Tr.bind_events _ _ _ ?_ ?_
    · intro ev hev
      simp only [emit, List.mem_singleton] at hev
      exact Or.inr (Or.inl hev)
    · intro es
      refine Tr.bind_events _ _ _ ?_ ?_
      · intro ev hev
        unfold clear_pending_line at hev
        by_cases hv : opts.verbose
        · simp [hv, Tr.pure] at hev
        · simp only [hv, if_neg, Bool.false_eq_true, if_false, List.mem_singleton] at hev
          exact Or.inr (Or.inr hev)
      · intro _
        refine Tr.bind_events _ _ _ ?_ ?_
        · intro ev hev
          simp only [print_commit, emit, List.mem_singleton] at hev
          exact Or.inl ⟨_, hev⟩
        · intro _ ev hev
          simp [Tr.pure] at hev

lemma stash_step_events (env : Env) (opts : Options) :
    ∀ ev ∈ (stash_step env opts).1, ev = Event.getCommitHash "refs/stash" := by
  unfold stash_step
  by_cases h1 : opts.apply_stash
  · simp only [h1, if_true]
    refine Tr.bind_events _ _ _ ?_ ?_
    · intro ev hev
      simpa [emit] using hev
    · intro _ ev hev
      simp [Tr.pure] at hev
  · by_cases h2 : opts.apply_index <;>
      simp [h1, h2, Tr.pure]

lemma expand_commits_events (env : Env) :
    ∀ (specs : List String), ∀ ev ∈ (expand_commits env specs).1,
      ∃ s, ev = Event.getCommitHashes s := by
  intro specs
  induction specs with
  | nil =>
    intro ev hev
    simp [expand_commits, Tr.pure] at hev
  | cons s rest ih =>
    simp only [expand_commits]
    refine Tr.bind_events _ _ _ ?_ ?_
    · intro ev hev
      simp only [emit, List.mem_singleton] at hev
      exact ⟨s, hev⟩
    · intro _
      refine Tr.bind_events _ _ _ ?_ ?_
      · exact ih
      · intro _ ev hev
        simp [Tr.pure] at hev

/-! Exact shapes of the preparation phase, one case per failure point. -/

lemma prep_steps_cases (env : Env) (commit : String) (stash : Option String) :
    (∃ e, env.checkoutDetached commit = Except.error e ∧
       prep_steps env commit stash =
         ([Event.checkout commit], Except.error (AppError.fromRun e)))
  ∨ (env.checkoutDetached commit = Except.ok () ∧
     ((∃ e, env.cleanWorkDir = Except.error e ∧
        prep_steps env commit stash =
          ([Event.checkout commit, Event.clean], Except.error (AppError.fromRun e)))
      ∨ (env.cleanWorkDir = Except.ok () ∧
         ((stash = none ∧ prep_steps env commit stash =
             ([Event.checkout commit, Event.clean], Except.ok ()))
          ∨ (∃ s, stash = some s ∧
             ((∃ e, env.applyStash s = Except.error e ∧
                prep_steps env commit stash =
                  ([Event.checkout commit, Event.clean, Event.applyStash s],
                   Except.error (AppError.fromRun e)))
              ∨ (env.applyStash s = Except.ok () ∧
                 prep_steps env commit stash =
                   ([Event.checkout commit, Event.clean, Event.applyStash s],
                    Except.ok ())))))))) := by
  rcases hco : env.checkoutDetached commit with e | u
  · exact Or.inl ⟨e, rfl, by
      simp [prep_steps, emit, hco, Tr.bind, Except.mapError]⟩
  · cases u
    refine Or.inr ⟨by simp [hco], ?_⟩
    rcases hcl : env.cleanWorkDir with e | u
    · exact Or.inl ⟨e, rfl, by
        simp [prep_steps, emit, hco, hcl, Tr.bind, Except.mapError]⟩
    · cases u
      refine Or.inr ⟨by simp [hcl], ?_⟩
      cases stash with
      | none =>
        exact Or.inl ⟨rfl, by
          simp [prep_steps, apply_stash_step, emit, hco, hcl, Tr.bind, Tr.pure,
            Except.mapError]⟩
      | some s =>
        refine Or.inr ⟨s, rfl, ?_⟩
        rcases has : env.applyStash s with e | u
        · exact Or.inl ⟨e, rfl, by
            simp [prep_steps, apply_stash_step, emit, hco, hcl, has, Tr.bind,
              Except.mapError]⟩
        · cases u
          exact Or.inr ⟨by simp [has], by
            simp [prep_steps, apply_stash_step, emit, hco, hcl, has, Tr.bind,
              Except.mapError]⟩

/-- With the commit hash resolved, run_app_for is exactly: log the
resolution, then preparation, then (on success of preparation) the tail. -/
lemma run_app_for_eq (env : Env) (opts : Options) (c hsh : String)
    (stash : Option String) (hres : env.getCommitHash c = Except.ok hsh) :
    run_app_for env opts c stash =
      (Event.getCommitHash c ::
         (Tr.bind (prep_steps env hsh stash) (fun _ => after_prep env opts hsh)).1,
       (Tr.bind (prep_steps env hsh stash) (fun _ => after_prep env opts hsh)).2) := by
  simp [run_app_for, emit, hres, Tr.bind, Except.mapError]

/-! Loop and expansion lemmas. -/

lemma runLoop_ok_last (env : Env) (opts : Options) (stash : Option String)
    (l : List String) :
    ∀ (hne : l ≠ []) (init code : Int),
      (runLoop env opts stash l init).2 = Except.ok code →
      (run_app_for env opts (l.getLast hne) stash).2 = Except.ok code := by
  induction l with
  | nil => intro hne; exact absurd rfl hne
  | cons c rest ih =>
    intro hne init code h
    simp only [runLoop] at h
    rcases (Tr.bind_snd_ok _ _ _).1 h with ⟨a, ha, hb⟩
    cases rest with
    | nil =>
      have hac : a = code := by simpa [runLoop, Tr.pure] using hb
      rw [List.getLast_singleton']
      exact hac ▸ ha
    | cons d ds =>
      have h2 := ih (by simp) a code hb
      rwa [List.getLast_cons_cons]

lemma runLoop_ok_append (env : Env) (opts : Options) (stash : Option String)
    (pre : List String) (c : String) (init code : Int)
    (h : (runLoop env opts stash (pre ++ [c]) init).2 = Except.ok code) :
    (run_app_for env opts c stash).2 = Except.ok code := by
  have h2 := runLoop_ok_last env opts stash (pre ++ [c]) (by simp) init code h
  rwa [List.getLast_append_singleton] at h2

lemma expand_commits_ok (env : Env) (f : String → List String) :
    ∀ specs : List String,
      (∀ s ∈ specs, env.getCommitHashes s = Except.ok (f s)) →
      (expand_commits env specs).2 = Except.ok ((specs.map f).flatten) := by
  intro specs
  induction specs with
  | nil =>
    intro _
    simp [expand_commits, Tr.pure]
  | cons s rest ih =>
    intro hf
    have hs := hf s (by simp)
    have hr := ih (fun x hx => hf x (by simp [hx]))
    simp [expand_commits, emit, hs, Tr.snd_bind, hr, Tr.pure, Except.mapError]

/-- A successful run_app_for returns exactly the raw code of the user
command at the resolved commit, with 255 substituted for an absent code. -/
lemma run_app_for_ok_decomp (env : Env) (opts : Options) (c hsh : String)
    (stash : Option String) (code : Int)
    (hres : env.getCommitHash c = Except.ok hsh)
    (h : (run_app_for env opts c stash).2 = Except.ok code) :
    ∃ es, env.runResult hsh = Except.ok es ∧ code = es.getD 255 := by
  unfold run_app_for at h
  rcases (Tr.bind_snd_ok _ _ _).1 h with ⟨a, ha, hb⟩
  rw [emit_snd_ok, hres] at ha
  have hah : a = hsh := by
    injection ha.symm
  subst hah
  rcases (Tr.bind_snd_ok _ _ _).1 hb with ⟨_, _, hc⟩
  unfold after_prep at hc
  rcases (Tr.bind_snd_ok _ _ _).1 hc with ⟨_, _, hd⟩
  rcases (Tr.bind_snd_ok _ _ _).1 hd with ⟨es, hes, he⟩
  rw [emit_snd_ok] at hes
  rcases (Tr.bind_snd_ok _ _ _).1 he with ⟨_, _, hg⟩
  rcases (Tr.bind_snd_ok _ _ _).1 hg with ⟨_, _, hi⟩
  simp only [Tr.pure, Except.ok.injEq] at hi
  exact ⟨es, hes, hi.symm⟩

/-! Decimal rendering of a byte fits the width-3 field. -/

set_option maxRecDepth 8192 in
lemma pad3_length_of_byte : ∀ n : Nat, n < 256 → (padRightAlign3 (toString n)).length = 3 := by
  decide

/-- C1: the status classifier is a pure total function of the raw exit
information: code 0 maps to Success, codes 1 through 124 and 126 and 127
map to Failure, code 125 maps to Inconclusive, and any other code or an
absent code maps to Abort; being a total function into the Status type it
yields exactly one variant in every case. -/
theorem c1_status_classification (es : ExitStatus) :
    (es = some 0 → Status.ofExitStatus es = Status.Success 0)
  ∧ (∀ c : Int, es = some c → (1 ≤ c ∧ c ≤ 124) ∨ c = 126 ∨ c = 127 →
        Status.ofExitStatus es = Status.Failure c)
  ∧ (es = some 125 → Status.ofExitStatus es = Status.Inconclusive 125)
  ∧ (∀ c : Int, es = some c → c ≠ 0 → ¬((1 ≤ c ∧ c ≤ 124) ∨ c = 126 ∨ c = 127) →
        c ≠ 125 → Status.ofExitStatus es = Status.Abort (some c))
  ∧ (es = none → Status.ofExitStatus es = Status.Abort none) := by
  refine ⟨?_, ?_, ?_, ?_, ?_⟩
  · rintro rfl
    simp [Status.ofExitStatus]
  · rintro c rfl hc
    have h0 : ¬(c = 0) := by rcases hc with ⟨h1, _⟩ | h | h <;> omega
    simp [Status.ofExitStatus, h0, hc]
  · rintro rfl
    decide
  · rintro c rfl h0 hf h125
    simp [Status.ofExitStatus, h0, hf, h125]
  · rintro rfl
    simp [Status.ofExitStatus]

/-- Witness for C1 at the Inconclusive boundary code 125. -/
theorem c1_witness :
    (some 125 : ExitStatus) = some 125 ∧
      Status.ofExitStatus (some 125) = Status.Inconclusive 125 :=
  ⟨rfl, (c1_status_classification (some 125)).2.2.1 rfl⟩

/-- C3 counterexample: the claim says the rendered numeric value is
zero-padded to 3 characters, but the code renders it with the Rust
specifier {:>3}, which pads with spaces: at exit code 5 the rendered
field is "  5", not "005". -/
theorem c3_counterexample :
    Status.get_format (Status.Success 5) ≠
      (Status.Success 5).glyph ++ zeroPad3 (toString ((5 : Int) % 256).toNat) ++ "%Creset" := by
  decide

/-- C3 as amended: for every outcome that carries a numeric code, the
numeric value rendered in the progress line is the code reduced to its
low 8 bits (code & 0xff, i.e. code % 256 on two's-complement i32),
space-padded (right-aligned) to exactly 3 characters; for an outcome with
no code no numeric value is shown, only a 3-space blank field. -/
theorem c3_display_code (st : Status) :
    (∀ c : Int, st.code = some c →
        st.get_format =
          st.glyph ++ padRightAlign3 (toString ((c % 256).toNat)) ++ "%Creset"
      ∧ (padRightAlign3 (toString ((c % 256).toNat))).length = 3)
  ∧ (st.code = none → st.get_format = st.glyph ++ "   %Creset") := by
  constructor
  · intro c hc
    constructor
    · unfold Status.get_format
      rw [hc]
    · apply pad3_length_of_byte
      have h1 : 0 ≤ c % 256 := Int.emod_nonneg c (by norm_num)
      have h2 : c % 256 < 256 := Int.emod_lt_of_pos c (by norm_num)
      omega
  · intro hc
    unfold Status.get_format
    rw [hc]

/-- Witness for C3 at the Failure outcome with code 7. -/
theorem c3_witness :
    (Status.Failure 7).code = some 7 ∧
      Status.get_format (Status.Failure 7) =
        (Status.Failure 7).glyph ++ padRightAlign3 (toString ((7 : Int) % 256).toNat) ++
          "%Creset" :=
  ⟨rfl, ((c3_display_code (Status.Failure 7)).1 7 rfl).1⟩

/-- C5: for every commit, the preparation steps occur in the fixed order
checkout, then clean, then (only with a configured stash) stash
application; clean never runs before checkout and stash application never
runs before clean (stated as sublist facts about the logged trace), and a
failing step aborts the run before any later step runs. -/
theorem c5_preparation_order (env : Env) (opts : Options) (c : String)
    (stash : Option String) (hsh : String)
    (hres : env.getCommitHash c = Except.ok hsh) :
    (Event.clean ∈ (run_app_for env opts c stash).1 →
        List.Sublist [Event.checkout hsh, Event.clean] (run_app_for env opts c stash).1)
  ∧ (∀ s, Event.applyStash s ∈ (run_app_for env opts c stash).1 →
        List.Sublist [Event.checkout hsh, Event.clean, Event.applyStash s]
          (run_app_for env opts c stash).1)
  ∧ (∀ e, env.checkoutDetached hsh = Except.error e →
        (run_app_for env opts c stash).1 = [Event.getCommitHash c, Event.checkout hsh]
      ∧ (run_app_for env opts c stash).2 = Except.error (AppError.fromRun e))
  ∧ (∀ e, env.cleanWorkDir = Except.error e →
        (∀ s, Event.applyStash s ∉ (run_app_for env opts c stash).1)
      ∧ (∀ x, Event.runCommand x ∉ (run_app_for env opts c stash).1)
      ∧ ∃ e2, (run_app_for env opts c stash).2 = Except.error e2)
  ∧ (∀ s e, stash = some s → env.applyStash s = Except.error e →
        (∀ x, Event.runCommand x ∉ (run_app_for env opts c stash).1)
      ∧ ∃ e2, (run_app_for env opts c stash).2 = Except.error e2) := by
  have heq := run_app_for_eq env opts c hsh stash hres
  rcases prep_steps_cases env hsh stash with
    ⟨e, hco, hp⟩ | ⟨hco, ⟨e, hcl, hp⟩ | ⟨hcl, ⟨hst, hp⟩ | ⟨s, hst, ⟨e, has, hp⟩ | ⟨has, hp⟩⟩⟩⟩
  · -- checkout fails: the run stops after the checkout call
    have hra : run_app_for env opts c stash =
        ([Event.getCommitHash c, Event.checkout hsh], Except.error (AppError.fromRun e)) := by
      rw [heq,
        Tr.fst_bind_error (fun _ => after_prep env opts hsh)
          (show (prep_steps env hsh stash).2 = Except.error (AppError.fromRun e) by
            rw [hp]), hp]
    refine ⟨?_, ?_, ?_, ?_, ?_⟩
    · intro hmem
      rw [hra] at hmem
      simp at hmem
    · intro s2 hmem
      rw [hra] at hmem
      simp at hmem
    · intro e2 hco2
      rw [hco] at hco2
      have he : e = e2 := by injection hco2
      subst he
      rw [hra]
      exact ⟨rfl, rfl⟩
    · intro e2 _
      rw [hra]
      exact ⟨by simp, by simp, ⟨AppError.fromRun e, rfl⟩⟩
    · intro s2 e2 _ _
      rw [hra]
      exact ⟨by simp, ⟨AppError.fromRun e, rfl⟩⟩
  · -- clean fails: the run stops after checkout and clean
    have hra : run_app_for env opts c stash =
        ([Event.getCommitHash c, Event.checkout hsh, Event.clean],
         Except.error (AppError.fromRun e)) := by
      rw [heq,
        Tr.fst_bind_error (fun _ => after_prep env opts hsh)
          (show (prep_steps env hsh stash).2 = Except.error (AppError.fromRun e) by
            rw [hp]), hp]
    refine ⟨?_, ?_, ?_, ?_, ?_⟩
    · intro _
      rw [hra]
      exact List.Sublist.cons _ (List.Sublist.cons₂ _ (List.Sublist.cons₂ _
        List.Sublist.slnil))
    · intro s2 hmem
      rw [hra] at hmem
      simp at hmem
    · intro e2 hco2
      rw [hco] at hco2
      simp at hco2
    · intro e2 _
      rw [hra]
      exact ⟨by simp, by simp, ⟨AppError.fromRun e, rfl⟩⟩
    · intro s2 e2 _ _
      rw [hra]
      exact ⟨by simp, ⟨AppError.fromRun e, rfl⟩⟩
  · -- no stash configured, preparation succeeds
    have hra1 : (run_app_for env opts c stash).1 =
        Event.getCommitHash c :: Event.checkout hsh :: Event.clean ::
          (after_prep env opts hsh).1 := by
      rw [heq,
        Tr.fst_bind_ok (fun _ => after_prep env opts hsh)
          (show (prep_steps env hsh stash).2 = Except.ok () by rw [hp]), hp]
      simp
    refine ⟨?_, ?_, ?_, ?_, ?_⟩
    · intro _
      rw [hra1]
      exact List.Sublist.cons _ (List.Sublist.cons₂ _ (List.Sublist.cons₂ _
        (List.nil_sublist _)))
    · intro s2 hmem
      rw [hra1] at hmem
      simp only [List.mem_cons] at hmem
      rcases hmem with h | h | h | h
      · simp at h
      · simp at h
      · simp at h
      · rcases after_prep_events env opts hsh _ h with ⟨st, hev⟩ | hev | hev <;> simp at hev
    · intro e2 hco2
      rw [hco] at hco2
      simp at hco2
    · intro e2 hcl2
      rw [hcl] at hcl2
      simp at hcl2
    · intro s2 e2 hst2 _
      rw [hst] at hst2
      simp at hst2
  · -- stash apply fails: the run stops right after the stash call
    have hra : run_app_for env opts c stash =
        ([Event.getCommitHash c, Event.checkout hsh, Event.clean, Event.applyStash s],
         Except.error (AppError.fromRun e)) := by
      rw [heq,
        Tr.fst_bind_error (fun _ => after_prep env opts hsh)
          (show (prep_steps env hsh stash).2 = Except.error (AppError.fromRun e) by
            rw [hp]), hp]
    refine ⟨?_, ?_, ?_, ?_, ?_⟩
    · intro _
      rw [hra]
      exact List.Sublist.cons _ (List.Sublist.cons₂ _ (List.Sublist.cons₂ _
        (List.Sublist.cons _ List.Sublist.slnil)))
    · intro s2 hmem
      rw [hra] at hmem
      simp at hmem
      subst hmem
      rw [hra]
      exact List.Sublist.cons _ (List.Sublist.cons₂ _ (List.Sublist.cons₂ _
        (List.Sublist.cons₂ _ List.Sublist.slnil)))
    · intro e2 hco2
      rw [hco] at hco2
      simp at hco2
    · intro e2 hcl2
      rw [hcl] at hcl2
      simp at hcl2
    · intro s2 e2 hst2 _
      rw [hra]
      exact ⟨by simp, ⟨AppError.fromRun e, rfl⟩⟩
  · -- full preparation succeeds
    have hra1 : (run_app_for env opts c stash).1 =
        Event.getCommitHash c :: Event.checkout hsh :: Event.clean ::
          Event.applyStash s :: (after_prep env opts hsh).1 := by
      rw [heq,
        Tr.fst_bind_ok (fun _ => after_prep env opts hsh)
          (show (prep_steps env hsh stash).2 = Except.ok () by rw [hp]), hp]
      simp
    refine ⟨?_, ?_, ?_, ?_, ?_⟩
    · intro _
      rw [hra1]
      exact List.Sublist.cons _ (List.Sublist.cons₂ _ (List.Sublist.cons₂ _
        (List.nil_sublist _)))
    · intro s2 hmem
      rw [hra1] at hmem
      simp only [List.mem_cons] at hmem
      rcases hmem with h | h | h | h | h
      · simp at h
      · simp at h
      · simp at h
      · simp at h
        subst h
        rw [hra1]
        exact List.Sublist.cons _ (List.Sublist.cons₂ _ (List.Sublist.cons₂ _
          (List.Sublist.cons₂ _ (List.nil_sublist _))))
      · rcases after_prep_events env opts hsh _ h with ⟨st, hev⟩ | hev | hev <;> simp at hev
    · intro e2 hco2
      rw [hco] at hco2
      simp at hco2
    · intro e2 hcl2
      rw [hcl] at hcl2
      simp at hcl2
    · intro s2 e2 hst2 has2
      rw [hst] at hst2
      have hss : s = s2 := by injection hst2
      subst hss
      rw [has] at has2
      simp at has2

/-- Witness for C5: with every collaborator call succeeding and a stash
configured, the logged preparation events contain checkout, clean and
stash application in that order. -/
theorem c5_witness :
    sampleEnv.getCommitHash "A" = Except.ok "h:A"
  ∧ List.Sublist [Event.checkout "h:A", Event.clean, Event.applyStash "S"]
      (run_app_for sampleEnv sampleOpts "A" (some "S")).1 :=
  ⟨by decide,
   (c5_preparation_order sampleEnv sampleOpts "A" (some "S") "h:A" (by decide)).2.1 "S"
     (by decide)⟩

/-- C2: when the run completes without a fatal error, the exit code of
the whole invocation is the code produced by run_app_for at the last
commit of the expanded sequence, whatever happened at the earlier
commits; and the expanded sequence is the concatenation of each
specifier's expansion, in specifier order. -/
theorem c2_last_commit_code (env : Env) (opts : Options) (pre : List String)
    (c : String) (code : Int) (f : String → List String) :
    ((app env opts).2 = Except.ok code →
      (expand_commits env opts.commits).2 = Except.ok (pre ++ [c]) →
      ∃ stash, (stash_step env opts).2 = Except.ok stash ∧
        (run_app_for env opts c stash).2 = Except.ok code)
  ∧ ((∀ s ∈ opts.commits, env.getCommitHashes s = Except.ok (f s)) →
      (expand_commits env opts.commits).2 = Except.ok ((opts.commits.map f).flatten)) := by
  constructor
  · intro happ hexp
    unfold app at happ
    rcases (Tr.bind_snd_ok _ _ _).1 happ with ⟨g, _, h1⟩
    rcases (Tr.bind_snd_ok _ _ _).1 h1 with ⟨stash, hstash, h2⟩
    rcases (Tr.bind_snd_ok _ _ _).1 h2 with ⟨commits, hcommits, h3⟩
    rcases (Tr.bind_snd_ok _ _ _).1 h3 with ⟨d, _, h4⟩
    rcases (Tr.bind_snd_ok _ _ _).1 h4 with ⟨u, _, h5⟩
    rw [hexp] at hcommits
    have hcc : commits = pre ++ [c] := by
      injection hcommits.symm
    subst hcc
    exact ⟨stash, hstash, runLoop_ok_append env opts stash pre c 0 code h5⟩
  · exact expand_commits_ok env f opts.commits

/-- Witness for C2 on the two-specifier sample run: the invocation code 7
is the code of the run at the last expanded commit h:B. -/
theorem c2_witness :
    (app sampleEnv sampleOpts).2 = Except.ok 7
  ∧ ∃ stash, (stash_step sampleEnv sampleOpts).2 = Except.ok stash ∧
      (run_app_for sampleEnv sampleOpts "h:B" stash).2 = Except.ok 7 :=
  ⟨by decide,
   (c2_last_commit_code sampleEnv sampleOpts ["h:A"] "h:B" 7 (fun s => ["h:" ++ s])).1
     (by decide) (by decide)⟩

/-- C7: every fatal condition terminates the invocation with the one
sentinel code 128 - argument-parsing failure and any error propagated
out of app - while a successful run_app_for, whatever classified code it
produced, lets the loop continue with the remaining commits. -/
theorem c7_fatal_sentinel (env : Env) (opts : Options) (msg : String) (e : AppError)
    (stash : Option String) (c : String) (rest : List String) (t : List Event)
    (code init : Int) :
    mainExitCode (Except.error msg) env = 128
  ∧ ((app env opts).2 = Except.error e → mainExitCode (Except.ok opts) env = 128)
  ∧ (run_app_for env opts c stash = (t, Except.ok code) →
      runLoop env opts stash (c :: rest) init =
        (t ++ (runLoop env opts stash rest code).1,
         (runLoop env opts stash rest code).2)) := by
  refine ⟨rfl, ?_, ?_⟩
  · intro h
    simp only [mainExitCode, h]
  · intro h
    simp only [runLoop]
    rw [h]
    simp [Tr.bind]

/-- Witness for C7: a failing git-directory lookup exits with 128, as
does a parse failure. -/
theorem c7_witness :
    (app failEnv sampleOpts).2 = Except.error (AppError.fromRun (RunError.gitErr "no repo"))
  ∧ mainExitCode (Except.ok sampleOpts) failEnv = 128
  ∧ mainExitCode (Except.error "bad usage") failEnv = 128 :=
  ⟨by decide,
   (c7_fatal_sentinel failEnv sampleOpts "bad usage"
      (AppError.fromRun (RunError.gitErr "no repo")) none "A" [] [] 0 0).2.1 (by decide),
   (c7_fatal_sentinel failEnv sampleOpts "bad usage"
      (AppError.fromRun (RunError.gitErr "no repo")) none "A" [] [] 0 0).1⟩

/-- C8: a user command that terminates abnormally (no exit code) at a
commit makes run_app_for record 255 for that commit, and hence the whole
invocation exits with 255 when that commit is the last one. -/
theorem c8_abnormal_termination_255 (env : Env) (opts : Options) (c hsh : String)
    (stash : Option String) (code init : Int) (pre : List String)
    (hres : env.getCommitHash c = Except.ok hsh)
    (hrun : env.runResult hsh = Except.ok none) :
    ((run_app_for env opts c stash).2 = Except.ok code → code = 255)
  ∧ ((runLoop env opts stash (pre ++ [c]) init).2 = Except.ok code → code = 255) := by
  have key : ∀ code2 : Int, (run_app_for env opts c stash).2 = Except.ok code2 →
      code2 = 255 := by
    intro code2 h
    rcases run_app_for_ok_decomp env opts c hsh stash code2 hres h with ⟨es, hes, hcode⟩
    rw [hrun] at hes
    have hne : none = es := by injection hes
    subst hne
    simpa using hcode
  exact ⟨key code, fun h => key code (runLoop_ok_append env opts stash pre c init code h)⟩

/-- Witness for C8: in sigEnv the command at every commit dies without a
code, and the recorded code evaluates to 255. -/
theorem c8_witness :
    sigEnv.runResult "h:A" = Except.ok none
  ∧ (run_app_for sigEnv sampleOpts "A" none).2 = Except.ok 255
  ∧ (255 : Int) = 255 :=
  ⟨by decide, by decide,
   (c8_abnormal_termination_255 sigEnv sampleOpts "A" "h:A" none 255 0 [] (by decide)
      (by decide)).1 (by decide)⟩

/-- C9: when every specifier expands to zero commits, the run still
creates the workspace and clones into it, never spawns the user command,
and the invocation exits with status 0. -/
theorem c9_empty_expansion (env : Env) (opts : Options) (g d : String)
    (st : Option String)
    (hg : env.getGitDir = Except.ok g)
    (hst : (stash_step env opts).2 = Except.ok st)
    (hexp : (expand_commits env opts.commits).2 = Except.ok [])
    (hd : env.createDir = Except.ok d)
    (hclone : env.cloneLocal = Except.ok ()) :
    (app env opts).2 = Except.ok 0
  ∧ Event.createDir ∈ (app env opts).1
  ∧ Event.cloneLocal ∈ (app env opts).1
  ∧ ∀ x, Event.runCommand x ∉ (app env opts).1 := by
  rcases hsp : stash_step env opts with ⟨ts, rs⟩
  rw [hsp] at hst
  simp only at hst
  subst hst
  rcases hep : expand_commits env opts.commits with ⟨te, re⟩
  rw [hep] at hexp
  simp only at hexp
  subst hexp
  have happ : app env opts =
      (Event.getGitDir :: (ts ++ (te ++ [Event.createDir, Event.cloneLocal])),
       Except.ok 0) := by
    unfold app
    rw [hg, hsp, hep]
    simp [Tr.bind, emit, hd, hclone, Except.mapError, runLoop, Tr.pure]
  refine ⟨by rw [happ], by rw [happ]; simp, by rw [happ]; simp, ?_⟩
  intro x hx
  rw [happ] at hx
  simp only [List.mem_cons, List.mem_append] at hx
  rcases hx with h | h | h
  · simp at h
  · have h2 := stash_step_events env opts (Event.runCommand x) (by rw [hsp]; exact h)
    simp at h2
  · rcases h with h | h
    · obtain ⟨s2, hev⟩ :=
        expand_commits_events env opts.commits (Event.runCommand x) (by rw [hep]; exact h)
      simp at hev
    · simp at h

/-- Witness for C9 on the environment whose specifiers all expand to
nothing: the workspace is created, nothing runs, exit status 0. -/
theorem c9_witness :
    (expand_commits emptyEnv sampleOpts.commits).2 = Except.ok []
  ∧ (app emptyEnv sampleOpts).2 = Except.ok 0
  ∧ Event.createDir ∈ (app emptyEnv sampleOpts).1
  ∧ Event.runCommand "h:A" ∉ (app emptyEnv sampleOpts).1 :=
  ⟨by decide,
   (c9_empty_expansion emptyEnv sampleOpts "/repo/.git" "/ws/t" none (by decide) (by decide)
      (by decide) (by decide) (by decide)).1,
   (c9_empty_expansion emptyEnv sampleOpts "/repo/.git" "/ws/t" none (by decide) (by decide)
      (by decide) (by decide) (by decide)).2.1,
   (c9_empty_expansion emptyEnv sampleOpts "/repo/.git" "/ws/t" none (by decide) (by decide)
      (by decide) (by decide) (by decide)).2.2.2 "h:A"⟩

/-- C10: structopt skips the apply_index field, so a parsed invocation
always carries apply_index = false, and the unimplemented panic branch of
app is unreachable: no run over parsed arguments ends in the panic
marker, whatever the collaborators do. -/
theorem c10_apply_index_unreachable (env : Env) (p : ParsedArgs) :
    (app env p.toOptions).2 ≠ Except.error AppError.panicUnimplemented := by
  have hnp : (app env p.toOptions).noPanic := by
    unfold app
    refine Tr.bind_noPanic (emit_noPanic _ _) (fun _ => ?_)
    refine Tr.bind_noPanic (stash_step_noPanic env _ rfl) (fun stc => ?_)
    refine Tr.bind_noPanic (expand_commits_noPanic env _) (fun commits => ?_)
    refine Tr.bind_noPanic (emit_noPanic _ _) (fun _ => ?_)
    refine Tr.bind_noPanic (emit_noPanic _ _) (fun _ => ?_)
    exact runLoop_noPanic env _ stc commits 0
  exact hnp

/-- C4: during workspace acquisition with no caller-supplied directory
(and the base directory present), a child whose name parses as a
timestamp is removed exactly when its age now - date strictly exceeds 7
weeks; a parsing child of age at most 7 weeks is retained, and a child
whose name does not parse is never removed. -/
theorem c4_workspace_retention (opts : Options) (parse : String → Option Int)
    (now : Int) (children : List String) (name newName baseDir : String) (d : Int)
    (hdir : opts.dir = none) :
    (name ∈ children → parse name = some d → weeksNs 7 < now - d →
        name ∈ (create_directory_plan opts parse now true children newName baseDir).1)
  ∧ (parse name = some d → now - d ≤ weeksNs 7 →
        name ∉ (create_directory_plan opts parse now true children newName baseDir).1)
  ∧ (parse name = none →
        name ∉ (create_directory_plan opts parse now true children newName baseDir).1) := by
  have hplan : (create_directory_plan opts parse now true children newName baseDir).1 =
      removed_dirs parse now children := by
    unfold create_directory_plan
    rw [hdir]
    simp
  rw [hplan]
  refine ⟨?_, ?_, ?_⟩
  · intro hmem hp hage
    unfold removed_dirs
    refine List.mem_map.2 ⟨(name, d), ?_, rfl⟩
    refine List.mem_filter.2 ⟨?_, ?_⟩
    · exact List.mem_filterMap.2 ⟨name, hmem, by rw [hp]; rfl⟩
    · simpa using hage
  · intro hp hage hmem
    unfold removed_dirs at hmem
    rcases List.mem_map.1 hmem with ⟨⟨n2, d2⟩, hin, hfst⟩
    have hfst2 : n2 = name := hfst
    subst hfst2
    rcases List.mem_filter.1 hin with ⟨hin2, hcond⟩
    rcases List.mem_filterMap.1 hin2 with ⟨n3, _, hmap⟩
    rcases ho : parse n3 with _ | d3
    · rw [ho] at hmap
      simp at hmap
    · rw [ho] at hmap
      have hmap2 : some (n3, d3) = some (n2, d2) := hmap
      have hmap3 : (n3, d3) = (n2, d2) := by injection hmap2
      have hn3 : n3 = n2 := congrArg Prod.fst hmap3
      have hd3 : d3 = d2 := congrArg Prod.snd hmap3
      rw [hn3, hp] at ho
      have hdd : d = d3 := by injection ho
      have hlt : weeksNs 7 < now - d2 := of_decide_eq_true hcond
      omega
  · intro hp hmem
    unfold removed_dirs at hmem
    rcases List.mem_map.1 hmem with ⟨⟨n2, d2⟩, hin, hfst⟩
    have hfst2 : n2 = name := hfst
    subst hfst2
    rcases List.mem_filter.1 hin with ⟨hin2, _⟩
    rcases List.mem_filterMap.1 hin2 with ⟨n3, _, hmap⟩
    rcases ho : parse n3 with _ | d3
    · rw [ho] at hmap
      simp at hmap
    · rw [ho] at hmap
      have hmap2 : some (n3, d3) = some (n2, d2) := hmap
      have hmap3 : (n3, d3) = (n2, d2) := by injection hmap2
      have hn3 : n3 = n2 := congrArg Prod.fst hmap3
      rw [hn3, hp] at ho
      exact Option.noConfusion ho

/-- Witness for C4: a child 49 days old (one nanosecond past 7 weeks) is
removed while the scan runs. -/
theorem c4_witness :
    sampleOpts.dir = none
  ∧ "20240101-000000-000" ∈ (create_directory_plan sampleOpts
      (fun n => if n = "20240101-000000-000" then some 0 else none)
      (weeksNs 7 + 1) true ["20240101-000000-000", "junk"] "new" "/base").1 :=
  ⟨rfl,
   (c4_workspace_retention sampleOpts
      (fun n => if n = "20240101-000000-000" then some 0 else none)
      (weeksNs 7 + 1) ["20240101-000000-000", "junk"] "20240101-000000-000" "new"
      "/base" 0 rfl).1 (by decide) (by decide) (by decide)⟩

/-- C6: with shell-command mode enabled the spawned process is the fixed
shell binary /bin/bash with arguments -c, the first command token, --,
then the remaining tokens; with the mode disabled the first token is the
program and the rest its arguments; in both modes (and both verbosity
settings) the child's standard input is suppressed. -/
theorem c6_spawn_construction (opts : Options) (tok : String) (rest : List String)
    (dir : String) :
    (opts.shell_command = true → ∃ sp, run_in opts (tok :: rest) dir = some sp ∧
        sp.program = "/bin/bash" ∧ sp.args = ["-c", tok, "--"] ++ rest ∧
        sp.current_dir = dir ∧ sp.stdin = StdioMode.nullStream)
  ∧ (opts.shell_command = false → ∃ sp, run_in opts (tok :: rest) dir = some sp ∧
        sp.program = tok ∧ sp.args = rest ∧ sp.current_dir = dir ∧
        sp.stdin = StdioMode.nullStream)
  ∧ (∀ sp, run_in opts (tok :: rest) dir = some sp → sp.stdin = StdioMode.nullStream) := by
  refine ⟨?_, ?_, ?_⟩
  · intro hs
    by_cases hv : opts.verbose
    · exact ⟨{ program := "/bin/bash", args := ["-c", tok, "--"] ++ rest,
               current_dir := dir, stdin := StdioMode.nullStream,
               stdout := StdioMode.inheritStream, stderr := StdioMode.inheritStream },
             by simp [run_in, hs, hv], rfl, rfl, rfl, rfl⟩
    · exact ⟨{ program := "/bin/bash", args := ["-c", tok, "--"] ++ rest,
               current_dir := dir, stdin := StdioMode.nullStream,
               stdout := StdioMode.nullStream, stderr := StdioMode.nullStream },
             by simp [run_in, hs, hv], rfl, rfl, rfl, rfl⟩
  · intro hs
    by_cases hv : opts.verbose
    · exact ⟨{ program := tok, args := rest,
               current_dir := dir, stdin := StdioMode.nullStream,
               stdout := StdioMode.inheritStream, stderr := StdioMode.inheritStream },
             by simp [run_in, hs, hv], rfl, rfl, rfl, rfl⟩
    · exact ⟨{ program := tok, args := rest,
               current_dir := dir, stdin := StdioMode.nullStream,
               stdout := StdioMode.nullStream, stderr := StdioMode.nullStream },
             by simp [run_in, hs, hv], rfl, rfl, rfl, rfl⟩
  · intro sp hsp
    unfold run_in at hsp
    by_cases hs : opts.shell_command <;> by_cases hv : opts.verbose <;>
      simp only [hs, hv, if_true, if_false, Bool.false_eq_true,
        Option.some.injEq] at hsp <;>
      rw [← hsp]

/-- Witness for C6 on the spec's own example: command ["echo hi",
"extra"] in shell mode spawns /bin/bash -c "echo hi" -- extra. -/
theorem c6_witness :
    shellOpts.shell_command = true
  ∧ ∃ sp, run_in shellOpts ["echo hi", "extra"] "/ws/t" = some sp ∧
      sp.program = "/bin/bash" ∧ sp.args = ["-c", "echo hi", "--"] ++ ["extra"] ∧
      sp.current_dir = "/ws/t" ∧ sp.stdin = StdioMode.nullStream :=
  ⟨rfl, (c6_spawn_construction shellOpts "echo hi" ["extra"] "/ws/t").1 rfl⟩
